import Mathlib

/-!
Verification of the interpolation routines of `interpol.py` against their
specification. The 1-D interpolators are embedded over exact rationals:
each sample table is a pair of lists `xp yp : List ℚ`, queries are rationals,
and the floating NaN sentinel for out-of-domain queries is `Option.none`.
The pixel repairer is embedded with the image grid as a function
`ℤ → ℤ → Fin 3 → ℚ` (row, column, RGB channel).
-/

namespace Interpol

/-! ### 1-D interpolators: validation (the assert statements) -/

/-- Strict-increase check `np.all(np.diff(xp) > 0)`: adjacent x-samples
strictly increase. -/
def increasing (xp : List ℚ) : Bool :=
  decide (List.Chain' (· < ·) xp)

/-- The assert block of `linear`: x strictly increasing, x and y the same
length (both are 1-D by construction of the embedding). -/
def linearValid (xp yp : List ℚ) : Bool :=
  increasing xp && (yp.length == xp.length)

/-- The assert block of `lagrange_cubic`, transcribed from its own three
assert statements (lines 74-76): identical checks to `linear`. -/
def lagrangeValid (xp yp : List ℚ) : Bool :=
  increasing xp && (yp.length == xp.length)

/-! ### The bracket scan

`for ind in range(xp.size): if xp[ind] > x: break` followed by `ind = ind - 1`.
After the loop, `ind` is the first index whose sample strictly exceeds `x`,
or `xp.size - 1` when the loop runs to exhaustion (Python leaves the loop
variable at its last value). -/

/-- The loop body: `go x i l` is the final value of `ind` when the loop is
entered at index `i` with remaining samples `l`; on exhaustion the loop
variable keeps its last value `i - 1`. -/
def loopGo (x : ℚ) : Nat → List ℚ → Nat
  | i, [] => i - 1
  | i, v :: l => if x < v then i else loopGo x (i + 1) l

/-- Value of `ind` after the bracket-scan loop of `linear`/`lagrange_cubic`. -/
def loopInd (x : ℚ) (xp : List ℚ) : Nat :=
  loopGo x 0 xp

/-! ### linear (single query)

Body of the per-query loop of `linear` (lines 36-46). In-range list access
is total here via `getD _ 0`: for every query that passes the domain guard
of a valid table with at least two samples, all indices below are in range. -/

/-- One iteration of the query loop of `linear`: domain guard
`x < xp[0] or x > xp[-1]` leaves the NaN sentinel (`none`); otherwise the
bracket scan fixes `ind` and the linear formula is evaluated. -/
def linear1 (xp yp : List ℚ) (x : ℚ) : Option ℚ :=
  if x < xp.getD 0 0 ∨ x > xp.getD (xp.length - 1) 0 then none
  else
    let ind := loopInd x xp - 1
    some (yp.getD ind 0 +
      (yp.getD (ind + 1) 0 - yp.getD ind 0) /
        (xp.getD (ind + 1) 0 - xp.getD ind 0) * (x - xp.getD ind 0))

/-! ### lagrange_cubic (single query) -/

/-- One iteration of the query loop of `lagrange_cubic` (lines 81-101):
domain guard `x < xp[1] or x >= xp[-2]` leaves the sentinel; otherwise the
same bracket scan fixes `ind`, the 4-point stencil
`ind-1, ind, ind+1, ind+2` is selected, and the Lagrange basis values are
combined. -/
def lagrange1 (xp yp : List ℚ) (x : ℚ) : Option ℚ :=
  if x < xp.getD 1 0 ∨ x ≥ xp.getD (xp.length - 2) 0 then none
  else
    let ind := loopInd x xp - 1
    let x1 := xp.getD (ind - 1) 0
    let y1 := yp.getD (ind - 1) 0
    let x2 := xp.getD ind 0
    let y2 := yp.getD ind 0
    let x3 := xp.getD (ind + 1) 0
    let y3 := yp.getD (ind + 1) 0
    let x4 := xp.getD (ind + 2) 0
    let y4 := yp.getD (ind + 2) 0
    let f1 := ((x - x2) * (x - x3) * (x - x4)) / ((x1 - x2) * (x1 - x3) * (x1 - x4))
    let f2 := ((x - x1) * (x - x3) * (x - x4)) / ((x2 - x1) * (x2 - x3) * (x2 - x4))
    let f3 := ((x - x1) * (x - x2) * (x - x4)) / ((x3 - x1) * (x3 - x2) * (x3 - x4))
    let f4 := ((x - x1) * (x - x2) * (x - x3)) / ((x4 - x1) * (x4 - x2) * (x4 - x3))
    some (y1 * f1 + y2 * f2 + y3 * f3 + y4 * f4)

/-! ### Full calls: query shape and validation

`np.array(xq, ndmin=1)` turns a scalar query into a one-element vector; the
final `if yq.size == 1: yq = yq[0]` collapses any one-element result back to
a scalar. A failed assert is modelled as `Option.none` at the call level. -/

/-- A query set: a scalar or a vector of x-values. -/
inductive Query where
  | scalar : ℚ → Query
  | vector : List ℚ → Query
deriving DecidableEq

/-- An interpolation result: scalar or vector, entries `none` = sentinel. -/
inductive Resp where
  | scalar : Option ℚ → Resp
  | vector : List (Option ℚ) → Resp
deriving DecidableEq

/-- Query coercion `np.array(xq, ndmin=1)`: a scalar becomes a one-element
vector. -/
def toVec : Query → List ℚ
  | .scalar x => [x]
  | .vector v => v

/-- The trailing `if yq.size == 1: yq = yq[0]` of both interpolators. -/
def abyu (l : List (Option ℚ)) : Resp :=
  if l.length = 1 then .scalar (l.getD 0 none) else .vector l

/-- The full `linear` call: validate, run `linear1` on every element of the
query vector, collapse a one-element result. `none` = assert failure. -/
def linear (xq : Query) (xp yp : List ℚ) : Option Resp :=
  if linearValid xp yp then some (abyu ((toVec xq).map (linear1 xp yp))) else none

/-- The full `lagrange_cubic` call, analogously. -/
def lagrange_cubic (xq : Query) (xp yp : List ℚ) : Option Resp :=
  if lagrangeValid xp yp then some (abyu ((toVec xq).map (lagrange1 xp yp))) else none

/-! ### pixelfix: the image grid model

The grid is a total function on (row, column, channel); rows and columns are
integers because `pixelfix` never range-checks them, and the boundary logic
hardcodes rows 0 and 719 (and likewise columns 0 and 719). -/

/-- An RGB image grid: row, column, channel (0 = red, 1 = green, 2 = blue). -/
def Grid : Type := ℤ → ℤ → Fin 3 → ℚ

/-- The branch cascade of `pixelfix` (lines 131-169) computing the
replacement value of channel `c` of pixel `(x, y)` from grid `I`.  The
red/green/blue assignments of each branch are identical up to the channel
index, so they are transcribed once, uniformly in `c`. -/
def neighborAvg (I : Grid) (x y : ℤ) (c : Fin 3) : ℚ :=
  if x = 0 then
    if y = 0 then (I (x + 1) y c + I x (y + 1) c) / 2
    else if y = 719 then (I (x + 1) y c + I x (y - 1) c) / 2
    else (I (x + 1) y c + I x (y + 1) c + I x (y - 1) c) / 3
  else if x = 719 then
    if y = 0 then (I (x - 1) y c + I x (y + 1) c) / 2
    else if y = 719 then (I (x - 1) y c + I x (y - 1) c) / 2
    else (I (x - 1) y c + I x (y + 1) c + I x (y - 1) c) / 3
  else
    if y = 0 then (I (x - 1) y c + I x (y + 1) c + I (x + 1) y c) / 3
    else if y = 719 then (I (x - 1) y c + I (x + 1) y c + I x (y - 1) c) / 3
    else (I (x + 1) y c + I x (y + 1) c + I x (y - 1) c + I (x - 1) y c) / 4

/-- One iteration of the repair loop: red, green and blue are all computed
from the current grid before the three writes, and the writes target the
three channels of `(x, y)` only. -/
def fixPixel (I : Grid) (x y : ℤ) : Grid :=
  fun a b c => if a = x ∧ b = y then neighborAvg I x y c else I a b c

/-- The repair loop of `pixelfix`: the coordinate list is processed left to
right, each iteration reading the grid state left by the previous ones
(all writes go through `Iq`, which is the same array as `I`). -/
def pixelfix (I : Grid) (pxq : List (ℤ × ℤ)) : Grid :=
  pxq.foldl (fun J p => fixPixel J p.1 p.2) I

set_option linter.unusedVariables false in
/-- A full `pixelfix` call, with the aliasing of line 126 (`Iq = I`, no
duplication for any value of `copy`) made explicit: the first component is
the returned grid, the second is the caller's input array after the call.
Both names refer to the one array every write went to, so both equal the
final mutated grid and `copy` is never consulted. -/
def pixelfixCall (I : Grid) (pxq : List (ℤ × ℤ)) (copy : Bool) : Grid × Grid :=
  (pixelfix I pxq, pixelfix I pxq)

/-- The four orthogonal neighbor coordinates of a pixel. -/
def orthoNbrs (x y : ℤ) : List (ℤ × ℤ) :=
  [(x - 1, y), (x + 1, y), (x, y - 1), (x, y + 1)]

/-- Membership of a coordinate in the 720 × 720 index square. -/
def inSquare (p : ℤ × ℤ) : Bool :=
  decide (0 ≤ p.1) && decide (p.1 ≤ 719) && decide (0 ≤ p.2) && decide (p.2 ≤ 719)

/-- The orthogonal neighbors of a pixel that exist in the 720 × 720 grid:
the neighbor set the claim describes. -/
def existingNbrs (x y : ℤ) : List (ℤ × ℤ) :=
  (orthoNbrs x y).filter inSquare

/-- Mean of channel `c` of grid `I` over a list of coordinates. -/
def meanOver (I : Grid) (ps : List (ℤ × ℤ)) (c : Fin 3) : ℚ :=
  ((ps.map fun p => I p.1 p.2 c).sum) / ps.length

/-! ### Auxiliary objects for the claims -/

/-- A cubic polynomial with coefficients `a b c d`, evaluated at `t`. -/
def cubicPoly (a b c d t : ℚ) : ℚ :=
  a + b * t + c * t ^ 2 + d * t ^ 3

/-- Whether a call result is a vector (sequence) response. -/
def isVecResult : Option Resp → Bool
  | some (.vector _) => true
  | _ => false

/-! ### The bracket index as the specification words it -/

/-- Bracket index per the spec: the first sample index whose x-value strictly
exceeds the query, stepped back one; when no sample x-value exceeds the
query, the last interval, i.e. index `n - 2`. -/
def specBracket (xp : List ℚ) (x : ℚ) : Nat :=
  match xp.findIdx? (fun v => decide (x < v)) with
  | some j => j - 1
  | none => xp.length - 2

/-! ### Helper lemmas -/

theorem getD_of_lt (l : List ℚ) {n : Nat} (h : n < l.length) :
    l.getD n 0 = l.get ⟨n, h⟩ := by
  simp [List.getD_eq_getElem?_getD, List.getElem?_eq_getElem h]

theorem loopGo_eq (x : ℚ) (l : List ℚ) (i : Nat) :
    loopGo x i l = (match l.findIdx? (fun v => decide (x < v)) with
      | some j => i + j
      | none => i + l.length - 1) := by
  induction l generalizing i with
  | nil => simp [loopGo]
  | cons v l ih =>
    by_cases h : x < v
    · simp [loopGo, h]
    · rw [loopGo, if_neg h, ih (i + 1), List.findIdx?_cons]
      simp only [h, decide_False, if_false, List.findIdx?_start_succ]
      cases hf : l.findIdx? (fun v => decide (x < v)) with
      | none => simp
      | some j =>
        simp
        ring

theorem loopInd_eq (x : ℚ) (xp : List ℚ) :
    loopInd x xp = (match xp.findIdx? (fun v => decide (x < v)) with
      | some j => j
      | none => xp.length - 1) := by
  rw [loopInd, loopGo_eq]
  cases xp.findIdx? (fun v => decide (x < v)) <;> simp

/-- Strict monotonicity of the samples, index form. -/
theorem increasing_getD_lt {xp : List ℚ} (h : increasing xp = true)
    {i j : Nat} (hij : i < j) (hj : j < xp.length) :
    xp.getD i 0 < xp.getD j 0 := by
  have hch : List.Chain' (· < ·) xp := by simpa [increasing] using h
  have hp : List.Pairwise (· < ·) xp := List.chain'_iff_pairwise.mp hch
  rw [getD_of_lt xp (lt_trans hij hj), getD_of_lt xp hj]
  exact List.pairwise_iff_get.mp hp ⟨i, lt_trans hij hj⟩ ⟨j, hj⟩ hij

/-- Facts delivered by a successful exceedance scan: the found index is in
range, its sample strictly exceeds the query, and every earlier sample does
not. -/
theorem findIdx_lt_facts {xp : List ℚ} {x : ℚ} {j : Nat}
    (hf : xp.findIdx? (fun v => decide (x < v)) = some j) :
    j < xp.length ∧ x < xp.getD j 0 ∧ ∀ k, k < j → xp.getD k 0 ≤ x := by
  rw [List.findIdx?_eq_some_iff_getElem] at hf
  obtain ⟨hj, hpj, hmin⟩ := hf
  refine ⟨hj, ?_, ?_⟩
  · rw [getD_of_lt xp hj]
    simpa using hpj
  · intro k hk
    have hnk := hmin k hk
    rw [getD_of_lt xp (lt_trans hk hj)]
    simpa using hnk

/-- When the exceedance scan fails, no sample strictly exceeds the query. -/
theorem findIdx_lt_none {xp : List ℚ} {x : ℚ}
    (hf : xp.findIdx? (fun v => decide (x < v)) = none) :
    ∀ k, k < xp.length → xp.getD k 0 ≤ x := by
  intro k hk
  have hall := List.findIdx?_eq_none_iff.mp hf
  have hm : xp.get ⟨k, hk⟩ ∈ xp := xp.get_mem _ _
  have := hall _ hm
  rw [getD_of_lt xp hk]
  simpa using this

/-! ### Sanity checks of the embedding on the spec's concrete scenario -/

example : linear1 [0, 1, 2, 3] [0, 1, 8, 27] (3/2) = some (9/2) := by
  norm_num [linear1, loopInd, loopGo]
example : lagrange1 [0, 1, 2, 3] [0, 1, 8, 27] (3/2) = some (27/8) := by
  norm_num [lagrange1, loopInd, loopGo]
example : linear1 [0, 1, 2, 3] [0, 1, 8, 27] 3 = some 27 := by
  norm_num [linear1, loopInd, loopGo]
example : linear1 [0, 1, 2, 3] [0, 1, 8, 27] 4 = none := by
  norm_num [linear1]
example : lagrange1 [0, 1, 2, 3] [0, 1, 8, 27] 2 = none := by
  norm_num [lagrange1]

end Interpol

namespace Interpol

/-- C1: for a valid table with at least two samples and an in-domain query
`x_0 ≤ x ≤ x_{n-1}`, the bracket index delivered by the exceedance scan
(first strictly exceeding index stepped back one, last interval on
fall-through, in particular at the right endpoint) brackets the query, and
`linear` returns the linear-interpolation formula on that interval. -/
theorem linear_bracket_and_formula (xp yp : List ℚ) (x : ℚ)
    (hv : linearValid xp yp = true) (hn : 2 ≤ xp.length)
    (hlo : xp.getD 0 0 ≤ x) (hhi : x ≤ xp.getD (xp.length - 1) 0) :
    xp.getD (specBracket xp x) 0 ≤ x ∧
    x ≤ xp.getD (specBracket xp x + 1) 0 ∧
    specBracket xp x + 1 < xp.length ∧
    ((∀ j, j < xp.length → xp.getD j 0 ≤ x) → specBracket xp x = xp.length - 2) ∧
    (x = xp.getD (xp.length - 1) 0 → specBracket xp x = xp.length - 2) ∧
    linear1 xp yp x = some (yp.getD (specBracket xp x) 0 +
      (yp.getD (specBracket xp x + 1) 0 - yp.getD (specBracket xp x) 0) /
        (xp.getD (specBracket xp x + 1) 0 - xp.getD (specBracket xp x) 0) *
        (x - xp.getD (specBracket xp x) 0)) := by
  have hvv := hv
  simp only [linearValid, Bool.and_eq_true, beq_iff_eq] at hvv
  obtain ⟨hinc, hlen⟩ := hvv
  have hguard : ¬(x < xp.getD 0 0 ∨ x > xp.getD (xp.length - 1) 0) := by
    rintro (h | h)
    · exact absurd h (not_lt.mpr hlo)
    · exact absurd h (not_lt.mpr hhi)
  cases hf : xp.findIdx? (fun v => decide (x < v)) with
  | none =>
    have hall := findIdx_lt_none hf
    have hb : specBracket xp x = xp.length - 2 := by
      simp [specBracket, hf]
    have hloop : loopInd x xp - 1 = specBracket xp x := by
      rw [loopInd_eq, hf]
      show xp.length - 1 - 1 = specBracket xp x
      rw [hb]
      omega
    refine ⟨?_, ?_, ?_, fun _ => hb, fun _ => hb, ?_⟩
    · rw [hb]; exact hall _ (by omega)
    · rw [hb, show xp.length - 2 + 1 = xp.length - 1 by omega]; exact hhi
    · rw [hb]; omega
    · rw [linear1, if_neg hguard, hloop]
  | some j =>
    obtain ⟨hj, hxj, hmin⟩ := findIdx_lt_facts hf
    have hj0 : 0 < j := by
      rcases Nat.eq_zero_or_pos j with h0 | h0
      · rw [h0] at hxj
        exact absurd hxj (not_lt.mpr hlo)
      · exact h0
    have hb : specBracket xp x = j - 1 := by
      simp [specBracket, hf]
    have hb1 : specBracket xp x + 1 = j := by omega
    have hloop : loopInd x xp - 1 = specBracket xp x := by
      rw [loopInd_eq, hf]
      show j - 1 = specBracket xp x
      rw [hb]
    refine ⟨?_, ?_, ?_, ?_, ?_, ?_⟩
    · rw [hb]; exact hmin _ (by omega)
    · rw [hb1]; exact le_of_lt hxj
    · rw [hb1]; exact hj
    · intro hallle
      exact absurd hxj (not_lt.mpr (hallle j hj))
    · intro hx
      exfalso
      by_cases hjn : j = xp.length - 1
      · rw [hjn] at hxj
        rw [hx] at hxj
        exact lt_irrefl _ hxj
      · have hjlt : j < xp.length - 1 := by omega
        have hmono := increasing_getD_lt hinc hjlt (by omega : xp.length - 1 < xp.length)
        rw [← hx] at hmono
        exact absurd hxj (not_lt.mpr (le_of_lt hmono))
    · rw [linear1, if_neg hguard, hloop]

end Interpol

namespace Interpol

/-- Witness for C1 at the spec's concrete table `xp = [0,1,2,3]`,
`yp = [0,1,8,27]` and query `x = 3/2`. -/
theorem linear_bracket_and_formula_witness :
    linearValid [0, 1, 2, 3] [0, 1, 8, 27] = true ∧
    2 ≤ [(0 : ℚ), 1, 2, 3].length ∧
    [(0 : ℚ), 1, 2, 3].getD 0 0 ≤ 3 / 2 ∧
    (3 / 2 : ℚ) ≤ [(0 : ℚ), 1, 2, 3].getD ([(0 : ℚ), 1, 2, 3].length - 1) 0 ∧
    ([(0 : ℚ), 1, 2, 3].getD (specBracket [0, 1, 2, 3] (3 / 2)) 0 ≤ 3 / 2 ∧
      (3 / 2 : ℚ) ≤ [(0 : ℚ), 1, 2, 3].getD (specBracket [0, 1, 2, 3] (3 / 2) + 1) 0 ∧
      specBracket [0, 1, 2, 3] (3 / 2) + 1 < [(0 : ℚ), 1, 2, 3].length ∧
      ((∀ j, j < [(0 : ℚ), 1, 2, 3].length → [(0 : ℚ), 1, 2, 3].getD j 0 ≤ 3 / 2) →
        specBracket [0, 1, 2, 3] (3 / 2) = [(0 : ℚ), 1, 2, 3].length - 2) ∧
      ((3 / 2 : ℚ) = [(0 : ℚ), 1, 2, 3].getD ([(0 : ℚ), 1, 2, 3].length - 1) 0 →
        specBracket [0, 1, 2, 3] (3 / 2) = [(0 : ℚ), 1, 2, 3].length - 2) ∧
      linear1 [0, 1, 2, 3] [0, 1, 8, 27] (3 / 2) =
        some ([(0 : ℚ), 1, 8, 27].getD (specBracket [0, 1, 2, 3] (3 / 2)) 0 +
          ([(0 : ℚ), 1, 8, 27].getD (specBracket [0, 1, 2, 3] (3 / 2) + 1) 0 -
              [(0 : ℚ), 1, 8, 27].getD (specBracket [0, 1, 2, 3] (3 / 2)) 0) /
            ([(0 : ℚ), 1, 2, 3].getD (specBracket [0, 1, 2, 3] (3 / 2) + 1) 0 -
              [(0 : ℚ), 1, 2, 3].getD (specBracket [0, 1, 2, 3] (3 / 2)) 0) *
            (3 / 2 - [(0 : ℚ), 1, 2, 3].getD (specBracket [0, 1, 2, 3] (3 / 2)) 0))) :=
  ⟨by norm_num [linearValid, increasing, List.chain'_cons],
   by norm_num,
   by norm_num,
   by norm_num,
   linear_bracket_and_formula [0, 1, 2, 3] [0, 1, 8, 27] (3 / 2)
     (by norm_num [linearValid, increasing, List.chain'_cons])
     (by norm_num)
     (by norm_num)
     (by norm_num)⟩

end Interpol

namespace Interpol

/-- C2: on a valid sample table each interpolator returns the sentinel
exactly for queries outside its supported domain — `linear` for
`x < x_0` or `x > x_{n-1}` (closed domain), `lagrange_cubic` for
`x < x_1` or `x ≥ x_{n-2}` (half-open domain) — and a batch query is
evaluated element-wise, so valid and sentinel results may mix. -/
theorem out_of_domain_sentinel (xp yp : List ℚ) (x : ℚ) (xs : List ℚ)
    (hvl : linearValid xp yp = true) (hvc : lagrangeValid xp yp = true)
    (hxs : xs.length ≠ 1) :
    (linear1 xp yp x = none ↔ x < xp.getD 0 0 ∨ x > xp.getD (xp.length - 1) 0) ∧
    (lagrange1 xp yp x = none ↔ x < xp.getD 1 0 ∨ x ≥ xp.getD (xp.length - 2) 0) ∧
    linear (Query.vector xs) xp yp = some (Resp.vector (xs.map (linear1 xp yp))) ∧
    lagrange_cubic (Query.vector xs) xp yp =
      some (Resp.vector (xs.map (lagrange1 xp yp))) := by
  refine ⟨?_, ?_, ?_, ?_⟩
  · by_cases hg : x < xp.getD 0 0 ∨ x > xp.getD (xp.length - 1) 0
    · rw [linear1, if_pos hg]
      exact iff_of_true rfl hg
    · rw [linear1, if_neg hg]
      exact iff_of_false (by simp) hg
  · by_cases hg : x < xp.getD 1 0 ∨ x ≥ xp.getD (xp.length - 2) 0
    · rw [lagrange1, if_pos hg]
      exact iff_of_true rfl hg
    · rw [lagrange1, if_neg hg]
      exact iff_of_false (by simp) hg
  · simp [linear, hvl, abyu, toVec, hxs]
  · simp [lagrange_cubic, hvc, abyu, toVec, hxs]

/-- Witness for C2: table `[0,1,2,3]/[0,1,8,27]`, scalar query `x = 5`
(out of both domains), batch `[3/2, 10]` mixing a valid and a sentinel
result. -/
theorem out_of_domain_sentinel_witness :
    linearValid [0, 1, 2, 3] [0, 1, 8, 27] = true ∧
    lagrangeValid [0, 1, 2, 3] [0, 1, 8, 27] = true ∧
    ([(3 : ℚ) / 2, 10].length ≠ 1) ∧
    ((linear1 [0, 1, 2, 3] [0, 1, 8, 27] 5 = none ↔
        (5 : ℚ) < [(0 : ℚ), 1, 2, 3].getD 0 0 ∨
        (5 : ℚ) > [(0 : ℚ), 1, 2, 3].getD ([(0 : ℚ), 1, 2, 3].length - 1) 0) ∧
      (lagrange1 [0, 1, 2, 3] [0, 1, 8, 27] 5 = none ↔
        (5 : ℚ) < [(0 : ℚ), 1, 2, 3].getD 1 0 ∨
        (5 : ℚ) ≥ [(0 : ℚ), 1, 2, 3].getD ([(0 : ℚ), 1, 2, 3].length - 2) 0) ∧
      linear (Query.vector [3 / 2, 10]) [0, 1, 2, 3] [0, 1, 8, 27] =
        some (Resp.vector ([(3 : ℚ) / 2, 10].map (linear1 [0, 1, 2, 3] [0, 1, 8, 27]))) ∧
      lagrange_cubic (Query.vector [3 / 2, 10]) [0, 1, 2, 3] [0, 1, 8, 27] =
        some (Resp.vector ([(3 : ℚ) / 2, 10].map (lagrange1 [0, 1, 2, 3] [0, 1, 8, 27])))) :=
  ⟨by norm_num [linearValid, increasing, List.chain'_cons],
   by norm_num [lagrangeValid, increasing, List.chain'_cons],
   by norm_num,
   out_of_domain_sentinel [0, 1, 2, 3] [0, 1, 8, 27] 5 [3 / 2, 10]
     (by norm_num [linearValid, increasing, List.chain'_cons])
     (by norm_num [lagrangeValid, increasing, List.chain'_cons])
     (by norm_num)⟩

end Interpol

namespace Interpol

/-- The exceedance scan finds index `m` when sample `m` exceeds the query
and no earlier sample does. -/
theorem findIdx_lt_eq_some {xp : List ℚ} {x : ℚ} {m : Nat}
    (hm : m < xp.length) (hgt : x < xp.getD m 0)
    (hle : ∀ k, k < m → xp.getD k 0 ≤ x) :
    xp.findIdx? (fun v => decide (x < v)) = some m := by
  rw [List.findIdx?_eq_some_iff_getElem]
  refine ⟨hm, ?_, ?_⟩
  · rw [getD_of_lt xp hm] at hgt
    simpa using hgt
  · intro j hj
    have := hle j hj
    rw [getD_of_lt xp (lt_trans hj hm)] at this
    simpa using this

/-- The exceedance scan finds nothing when no sample exceeds the query. -/
theorem findIdx_lt_eq_none {xp : List ℚ} {x : ℚ}
    (hle : ∀ k, k < xp.length → xp.getD k 0 ≤ x) :
    xp.findIdx? (fun v => decide (x < v)) = none := by
  rw [List.findIdx?_eq_none_iff]
  intro v hv
  obtain ⟨⟨k, hk⟩, rfl⟩ := List.mem_iff_get.mp hv
  have := hle k hk
  rw [getD_of_lt xp hk] at this
  simpa using this

/-- Evaluating the four Lagrange basis terms at the second stencil node
collapses the sum to the second y-value. -/
theorem lagrange_at_node (x1 x2 x3 x4 y1 y2 y3 y4 : ℚ)
    (h21 : x2 - x1 ≠ 0) (h23 : x2 - x3 ≠ 0) (h24 : x2 - x4 ≠ 0) :
    y1 * (((x2 - x2) * (x2 - x3) * (x2 - x4)) / ((x1 - x2) * (x1 - x3) * (x1 - x4))) +
    y2 * (((x2 - x1) * (x2 - x3) * (x2 - x4)) / ((x2 - x1) * (x2 - x3) * (x2 - x4))) +
    y3 * (((x2 - x1) * (x2 - x2) * (x2 - x4)) / ((x3 - x1) * (x3 - x2) * (x3 - x4))) +
    y4 * (((x2 - x1) * (x2 - x2) * (x2 - x3)) / ((x4 - x1) * (x4 - x2) * (x4 - x3))) = y2 := by
  rw [div_self (mul_ne_zero (mul_ne_zero h21 h23) h24)]
  simp [sub_self]

end Interpol

namespace Interpol

/-- C6: on a valid table, querying an interpolator at a sample node that
lies inside its supported domain returns exactly that node's y-value:
`linear` at every node `x_i`, `lagrange_cubic` at every node with
`x_1 ≤ x_i < x_{n-2}`. -/
theorem node_query_exact (xp yp : List ℚ) (i : Nat)
    (hv : linearValid xp yp = true) (hn : 2 ≤ xp.length) (hi : i < xp.length) :
    linear1 xp yp (xp.getD i 0) = some (yp.getD i 0) ∧
    (xp.getD 1 0 ≤ xp.getD i 0 ∧ xp.getD i 0 < xp.getD (xp.length - 2) 0 →
      lagrange1 xp yp (xp.getD i 0) = some (yp.getD i 0)) := by
  have hvv := hv
  simp only [linearValid, Bool.and_eq_true, beq_iff_eq] at hvv
  obtain ⟨hinc, hlen⟩ := hvv
  have mono : ∀ {k m : Nat}, k < m → m < xp.length → xp.getD k 0 < xp.getD m 0 :=
    fun hkm hm => increasing_getD_lt hinc hkm hm
  have hle_node : ∀ k, k < i + 1 → xp.getD k 0 ≤ xp.getD i 0 := by
    intro k hk
    rcases Nat.lt_or_ge k i with h | h
    · exact le_of_lt (mono h hi)
    · have : k = i := by omega
      rw [this]
  constructor
  · have hlo : xp.getD 0 0 ≤ xp.getD i 0 := hle_node 0 (by omega)
    have hhi : xp.getD i 0 ≤ xp.getD (xp.length - 1) 0 := by
      rcases Nat.lt_or_ge i (xp.length - 1) with h | h
      · exact le_of_lt (mono h (by omega))
      · have : i = xp.length - 1 := by omega
        rw [this]
    have hguard : ¬(xp.getD i 0 < xp.getD 0 0 ∨ xp.getD i 0 > xp.getD (xp.length - 1) 0) := by
      rintro (h | h)
      · exact absurd h (not_lt.mpr hlo)
      · exact absurd h (not_lt.mpr hhi)
    rcases Nat.lt_or_ge i (xp.length - 1) with hilt | hige
    · have hf := findIdx_lt_eq_some (by omega : i + 1 < xp.length)
        (mono (by omega) (by omega)) hle_node
      have hym : loopInd (xp.getD i 0) xp - 1 = i := by
        rw [loopInd_eq, hf]
        show i + 1 - 1 = i
        omega
      rw [linear1, if_neg hguard, hym]
      simp [sub_self]
    · have hieq : i = xp.length - 1 := by omega
      have hf : xp.findIdx? (fun v => decide (xp.getD i 0 < v)) = none := by
        refine findIdx_lt_eq_none ?_
        intro k hk
        rcases Nat.lt_or_ge k i with h | h
        · exact le_of_lt (mono h hi)
        · have : k = i := by omega
          rw [this]
      have hym : loopInd (xp.getD i 0) xp - 1 = xp.length - 2 := by
        rw [loopInd_eq, hf]
        show xp.length - 1 - 1 = xp.length - 2
        omega
      rw [linear1, if_neg hguard, hym]
      have h21 : xp.length - 2 + 1 = xp.length - 1 := by omega
      have hne : xp.getD i 0 - xp.getD (xp.length - 2) 0 ≠ 0 := by
        have hlt : xp.length - 2 < i := by omega
        exact sub_ne_zero.mpr (ne_of_gt (mono hlt hi))
      refine congrArg some ?_
      rw [h21, ← hieq, div_mul_cancel₀ _ hne]
      ring
  · rintro ⟨hd1, hd2⟩
    have hi1 : 1 ≤ i := by
      by_contra h
      have h0 : i = 0 := by omega
      rw [h0] at hd1
      exact absurd (mono (by omega : 0 < 1) (by omega : 1 < xp.length)) (not_lt.mpr hd1)
    have hin2 : i < xp.length - 2 := by
      by_contra h
      push_neg at h
      rcases Nat.lt_or_ge (xp.length - 2) i with hlt | hge
      · exact absurd hd2 (not_lt.mpr (le_of_lt (mono hlt hi)))
      · have : xp.length - 2 = i := by omega
        rw [this] at hd2
        exact absurd hd2 (lt_irrefl _)
    have hguard : ¬(xp.getD i 0 < xp.getD 1 0 ∨ xp.getD i 0 ≥ xp.getD (xp.length - 2) 0) := by
      rintro (h | h)
      · exact absurd h (not_lt.mpr hd1)
      · exact absurd hd2 (not_lt.mpr h)
    have hf := findIdx_lt_eq_some (by omega : i + 1 < xp.length)
      (mono (by omega) (by omega)) hle_node
    have hym : loopInd (xp.getD i 0) xp - 1 = i := by
      rw [loopInd_eq, hf]
      show i + 1 - 1 = i
      omega
    rw [lagrange1, if_neg hguard, hym]
    have h21 : xp.getD i 0 - xp.getD (i - 1) 0 ≠ 0 :=
      sub_ne_zero.mpr (ne_of_gt (mono (by omega) hi))
    have h23 : xp.getD i 0 - xp.getD (i + 1) 0 ≠ 0 :=
      sub_ne_zero.mpr (ne_of_lt (mono (by omega) (by omega)))
    have h24 : xp.getD i 0 - xp.getD (i + 2) 0 ≠ 0 :=
      sub_ne_zero.mpr (ne_of_lt (mono (by omega) (by omega)))
    exact congrArg some (lagrange_at_node (xp.getD (i - 1) 0) (xp.getD i 0)
      (xp.getD (i + 1) 0) (xp.getD (i + 2) 0) (yp.getD (i - 1) 0) (yp.getD i 0)
      (yp.getD (i + 1) 0) (yp.getD (i + 2) 0) h21 h23 h24)

end Interpol

namespace Interpol

/-- Witness for C6 at table `[0,1,2,3]/[0,1,8,27]`, node `i = 1`. -/
theorem node_query_exact_witness :
    linearValid [0, 1, 2, 3] [0, 1, 8, 27] = true ∧
    2 ≤ [(0 : ℚ), 1, 2, 3].length ∧
    1 < [(0 : ℚ), 1, 2, 3].length ∧
    (linear1 [0, 1, 2, 3] [0, 1, 8, 27] ([(0 : ℚ), 1, 2, 3].getD 1 0) =
        some ([(0 : ℚ), 1, 8, 27].getD 1 0) ∧
      ([(0 : ℚ), 1, 2, 3].getD 1 0 ≤ [(0 : ℚ), 1, 2, 3].getD 1 0 ∧
          [(0 : ℚ), 1, 2, 3].getD 1 0 <
            [(0 : ℚ), 1, 2, 3].getD ([(0 : ℚ), 1, 2, 3].length - 2) 0 →
        lagrange1 [0, 1, 2, 3] [0, 1, 8, 27] ([(0 : ℚ), 1, 2, 3].getD 1 0) =
          some ([(0 : ℚ), 1, 8, 27].getD 1 0))) :=
  ⟨by norm_num [linearValid, increasing, List.chain'_cons],
   by norm_num,
   by norm_num,
   node_query_exact [0, 1, 2, 3] [0, 1, 8, 27] 1
     (by norm_num [linearValid, increasing, List.chain'_cons])
     (by norm_num)
     (by norm_num)⟩

set_option maxHeartbeats 1000000 in
/-- Exactness of the 4-point Lagrange combination on any cubic polynomial:
with pairwise distinct stencil nodes and y-values sampled from the cubic,
the combination reproduces the cubic at every point. -/
theorem lagrange_cubic_exact (a b c d x x1 x2 x3 x4 : ℚ)
    (h12 : x1 ≠ x2) (h13 : x1 ≠ x3) (h14 : x1 ≠ x4)
    (h23 : x2 ≠ x3) (h24 : x2 ≠ x4) (h34 : x3 ≠ x4) :
    cubicPoly a b c d x1 *
        (((x - x2) * (x - x3) * (x - x4)) / ((x1 - x2) * (x1 - x3) * (x1 - x4))) +
    cubicPoly a b c d x2 *
        (((x - x1) * (x - x3) * (x - x4)) / ((x2 - x1) * (x2 - x3) * (x2 - x4))) +
    cubicPoly a b c d x3 *
        (((x - x1) * (x - x2) * (x - x4)) / ((x3 - x1) * (x3 - x2) * (x3 - x4))) +
    cubicPoly a b c d x4 *
        (((x - x1) * (x - x2) * (x - x3)) / ((x4 - x1) * (x4 - x2) * (x4 - x3))) =
    cubicPoly a b c d x := by
  have h12' : x1 - x2 ≠ 0 := sub_ne_zero.mpr h12
  have h13' : x1 - x3 ≠ 0 := sub_ne_zero.mpr h13
  have h14' : x1 - x4 ≠ 0 := sub_ne_zero.mpr h14
  have h23' : x2 - x3 ≠ 0 := sub_ne_zero.mpr h23
  have h24' : x2 - x4 ≠ 0 := sub_ne_zero.mpr h24
  have h34' : x3 - x4 ≠ 0 := sub_ne_zero.mpr h34
  have h21' : x2 - x1 ≠ 0 := sub_ne_zero.mpr (Ne.symm h12)
  have h31' : x3 - x1 ≠ 0 := sub_ne_zero.mpr (Ne.symm h13)
  have h32' : x3 - x2 ≠ 0 := sub_ne_zero.mpr (Ne.symm h23)
  have h41' : x4 - x1 ≠ 0 := sub_ne_zero.mpr (Ne.symm h14)
  have h42' : x4 - x2 ≠ 0 := sub_ne_zero.mpr (Ne.symm h24)
  have h43' : x4 - x3 ≠ 0 := sub_ne_zero.mpr (Ne.symm h34)
  rw [cubicPoly, cubicPoly, cubicPoly, cubicPoly, cubicPoly]
  field_simp
  ring

/-- C5: sampling any true cubic on a valid table and interpolating with
`lagrange_cubic` is a round trip: for every in-domain query the
interpolator returns exactly the cubic's value. -/
theorem cubic_round_trip (xp yp : List ℚ) (a b c d x : ℚ)
    (hv : lagrangeValid xp yp = true) (hn : 4 ≤ xp.length)
    (hsamp : ∀ i, i < xp.length → yp.getD i 0 = cubicPoly a b c d (xp.getD i 0))
    (hd1 : xp.getD 1 0 ≤ x) (hd2 : x < xp.getD (xp.length - 2) 0) :
    lagrange1 xp yp x = some (cubicPoly a b c d x) := by
  have hvv := hv
  simp only [lagrangeValid, Bool.and_eq_true, beq_iff_eq] at hvv
  obtain ⟨hinc, hlen⟩ := hvv
  have mono : ∀ {k m : Nat}, k < m → m < xp.length → xp.getD k 0 < xp.getD m 0 :=
    fun hkm hm => increasing_getD_lt hinc hkm hm
  have hguard : ¬(x < xp.getD 1 0 ∨ x ≥ xp.getD (xp.length - 2) 0) := by
    rintro (h | h)
    · exact absurd h (not_lt.mpr hd1)
    · exact absurd hd2 (not_lt.mpr h)
  cases hf : xp.findIdx? (fun v => decide (x < v)) with
  | none =>
    exfalso
    have := findIdx_lt_none hf (xp.length - 2) (by omega)
    exact absurd hd2 (not_lt.mpr this)
  | some j =>
    obtain ⟨hj, hxj, hmin⟩ := findIdx_lt_facts hf
    have hj2 : 2 ≤ j := by
      rcases Nat.lt_or_ge j 2 with h | h
      · exfalso
        interval_cases j
        · exact absurd hxj (not_lt.mpr (le_trans (le_of_lt (mono (by omega) (by omega))) hd1))
        · exact absurd hxj (not_lt.mpr hd1)
      · exact h
    have hjn : j ≤ xp.length - 2 := by
      by_contra h
      push_neg at h
      have := hmin (xp.length - 2) (by omega)
      exact absurd hd2 (not_lt.mpr this)
    have hym : loopInd x xp - 1 = j - 1 := by
      rw [loopInd_eq, hf]
    rw [lagrange1, if_neg hguard, hym]
    refine congrArg some ?_
    rw [hsamp (j - 1 - 1) (by omega), hsamp (j - 1) (by omega),
      hsamp (j - 1 + 1) (by omega), hsamp (j - 1 + 2) (by omega)]
    exact lagrange_cubic_exact a b c d x
      (xp.getD (j - 1 - 1) 0) (xp.getD (j - 1) 0)
      (xp.getD (j - 1 + 1) 0) (xp.getD (j - 1 + 2) 0)
      (ne_of_lt (mono (by omega) (by omega)))
      (ne_of_lt (mono (by omega) (by omega)))
      (ne_of_lt (mono (by omega) (by omega)))
      (ne_of_lt (mono (by omega) (by omega)))
      (ne_of_lt (mono (by omega) (by omega)))
      (ne_of_lt (mono (by omega) (by omega)))

end Interpol

namespace Interpol

/-- Evaluation of the existing-neighbor set on the top row away from
corners. -/
theorem existingNbrs_row0 (y : ℤ) (hy0 : 0 ≤ y) (hy7 : y ≤ 719)
    (h3 : y ≠ 0) (h4 : y ≠ 719) :
    existingNbrs 0 y = [(1, y), (0, y - 1), (0, y + 1)] := by
  have n1 : inSquare (-1, y) = false := by simp [inSquare]
  have p2 : inSquare (1, y) = true := by simp [inSquare]; omega
  have p3 : inSquare (0, y - 1) = true := by simp [inSquare]; omega
  have p4 : inSquare (0, y + 1) = true := by simp [inSquare]; omega
  simp [existingNbrs, orthoNbrs, List.filter, n1, p2, p3, p4]

/-- Evaluation of the existing-neighbor set on the bottom row away from
corners. -/
theorem existingNbrs_row719 (y : ℤ) (hy0 : 0 ≤ y) (hy7 : y ≤ 719)
    (h3 : y ≠ 0) (h4 : y ≠ 719) :
    existingNbrs 719 y = [(718, y), (719, y - 1), (719, y + 1)] := by
  have n1 : inSquare (720, y) = false := by simp [inSquare]
  have p2 : inSquare (718, y) = true := by simp [inSquare]; omega
  have p3 : inSquare (719, y - 1) = true := by simp [inSquare]; omega
  have p4 : inSquare (719, y + 1) = true := by simp [inSquare]; omega
  simp [existingNbrs, orthoNbrs, List.filter, n1, p2, p3, p4]

/-- Evaluation of the existing-neighbor set on the left column away from
corners. -/
theorem existingNbrs_col0 (x : ℤ) (hx0 : 0 ≤ x) (hx7 : x ≤ 719)
    (h1 : x ≠ 0) (h2 : x ≠ 719) :
    existingNbrs x 0 = [(x - 1, 0), (x + 1, 0), (x, 1)] := by
  have p1 : inSquare (x - 1, 0) = true := by simp [inSquare]; omega
  have p2 : inSquare (x + 1, 0) = true := by simp [inSquare]; omega
  have n3 : inSquare (x, -1) = false := by simp [inSquare]
  have p4 : inSquare (x, 1) = true := by simp [inSquare]; omega
  simp [existingNbrs, orthoNbrs, List.filter, p1, p2, n3, p4]

/-- Evaluation of the existing-neighbor set on the right column away from
corners. -/
theorem existingNbrs_col719 (x : ℤ) (hx0 : 0 ≤ x) (hx7 : x ≤ 719)
    (h1 : x ≠ 0) (h2 : x ≠ 719) :
    existingNbrs x 719 = [(x - 1, 719), (x + 1, 719), (x, 718)] := by
  have p1 : inSquare (x - 1, 719) = true := by simp [inSquare]; omega
  have p2 : inSquare (x + 1, 719) = true := by simp [inSquare]; omega
  have p3 : inSquare (x, 718) = true := by simp [inSquare]; omega
  have n4 : inSquare (x, 720) = false := by simp [inSquare]
  simp [existingNbrs, orthoNbrs, List.filter, p1, p2, p3, n4]

/-- Evaluation of the existing-neighbor set at an interior pixel. -/
theorem existingNbrs_interior (x y : ℤ) (hx0 : 0 ≤ x) (hx7 : x ≤ 719)
    (hy0 : 0 ≤ y) (hy7 : y ≤ 719)
    (h1 : x ≠ 0) (h2 : x ≠ 719) (h3 : y ≠ 0) (h4 : y ≠ 719) :
    existingNbrs x y = [(x - 1, y), (x + 1, y), (x, y - 1), (x, y + 1)] := by
  have p1 : inSquare (x - 1, y) = true := by simp [inSquare]; omega
  have p2 : inSquare (x + 1, y) = true := by simp [inSquare]; omega
  have p3 : inSquare (x, y - 1) = true := by simp [inSquare]; omega
  have p4 : inSquare (x, y + 1) = true := by simp [inSquare]; omega
  simp [existingNbrs, orthoNbrs, List.filter, p1, p2, p3, p4]

/-- The branch cascade of `pixelfix` computes, for every in-square pixel,
exactly the mean over the pixel's existing orthogonal neighbors. -/
theorem neighborAvg_eq_meanOver (I : Grid) (x y : ℤ) (c : Fin 3)
    (hx0 : 0 ≤ x) (hx7 : x ≤ 719) (hy0 : 0 ≤ y) (hy7 : y ≤ 719) :
    neighborAvg I x y c = meanOver I (existingNbrs x y) c := by
  by_cases h1 : x = 0 <;> by_cases h2 : x = 719 <;> by_cases h3 : y = 0 <;> by_cases h4 : y = 719
  · exfalso; omega
  · exfalso; omega
  · exfalso; omega
  · exfalso; omega
  · exfalso; omega
  · subst h1; subst h3
    rw [neighborAvg]
    simp only [if_pos rfl]
    rw [show existingNbrs 0 0 = [(1, 0), (0, 1)] from rfl, meanOver]
    simp
  · subst h1; subst h4
    rw [neighborAvg]
    simp only [if_pos rfl, if_neg h3]
    rw [show existingNbrs 0 719 = [(1, 719), (0, 718)] from rfl, meanOver]
    simp
  · subst h1
    rw [neighborAvg]
    simp only [if_pos rfl, if_neg h3, if_neg h4]
    rw [existingNbrs_row0 y hy0 hy7 h3 h4, meanOver]
    simp
    ring
  · exfalso; omega
  · subst h2; subst h3
    rw [neighborAvg]
    simp only [if_pos rfl, if_neg h1]
    rw [show existingNbrs 719 0 = [(718, 0), (719, 1)] from rfl, meanOver]
    simp
  · subst h2; subst h4
    rw [neighborAvg]
    simp only [if_pos rfl, if_neg h1, if_neg h3]
    rw [show existingNbrs 719 719 = [(718, 719), (719, 718)] from rfl, meanOver]
    simp
  · subst h2
    rw [neighborAvg]
    simp only [if_pos rfl, if_neg h1, if_neg h3, if_neg h4]
    rw [existingNbrs_row719 y hy0 hy7 h3 h4, meanOver]
    simp
    ring
  · exfalso; omega
  · subst h3
    rw [neighborAvg]
    simp only [if_pos rfl, if_neg h1, if_neg h2]
    rw [existingNbrs_col0 x hx0 hx7 h1 h2, meanOver]
    simp
    ring
  · subst h4
    rw [neighborAvg]
    simp only [if_pos rfl, if_neg h1, if_neg h2, if_neg h3]
    rw [existingNbrs_col719 x hx0 hx7 h1 h2, meanOver]
    simp
    ring
  · rw [neighborAvg]
    simp only [if_neg h1, if_neg h2, if_neg h3, if_neg h4]
    rw [existingNbrs_interior x y hx0 hx7 hy0 hy7 h1 h2 h3 h4, meanOver]
    simp
    ring

end Interpol

namespace Interpol

/-- C3: a repaired pixel's value in each RGB channel is the arithmetic mean,
per channel over the same neighbor set, of its existing orthogonal
neighbors: 4 for an interior pixel, 3 on row 0/719 away from a corner, 2 at
a corner; in particular corner (0,0) receives the per-channel average of
pixels (1,0) and (0,1). -/
theorem repaired_pixel_neighbor_mean (I : Grid) (x y : ℤ) (c : Fin 3)
    (hx0 : 0 ≤ x) (hx7 : x ≤ 719) (hy0 : 0 ≤ y) (hy7 : y ≤ 719) :
    fixPixel I x y x y c = meanOver I (existingNbrs x y) c ∧
    (¬(x = 0 ∨ x = 719) → ¬(y = 0 ∨ y = 719) → (existingNbrs x y).length = 4) ∧
    ((x = 0 ∨ x = 719) → ¬(y = 0 ∨ y = 719) → (existingNbrs x y).length = 3) ∧
    ((x = 0 ∨ x = 719) → (y = 0 ∨ y = 719) → (existingNbrs x y).length = 2) ∧
    (x = 0 → y = 0 → fixPixel I x y x y c = (I 1 0 c + I 0 1 c) / 2) := by
  have hfix : fixPixel I x y x y c = neighborAvg I x y c := by
    simp [fixPixel]
  refine ⟨?_, ?_, ?_, ?_, ?_⟩
  · rw [hfix]
    exact neighborAvg_eq_meanOver I x y c hx0 hx7 hy0 hy7
  · intro hxm hym
    push_neg at hxm hym
    rw [existingNbrs_interior x y hx0 hx7 hy0 hy7 hxm.1 hxm.2 hym.1 hym.2]
    rfl
  · intro hxe hym
    push_neg at hym
    rcases hxe with h | h
    · subst h
      rw [existingNbrs_row0 y hy0 hy7 hym.1 hym.2]
      rfl
    · subst h
      rw [existingNbrs_row719 y hy0 hy7 hym.1 hym.2]
      rfl
  · rintro (h | h) (h' | h') <;> subst h <;> subst h' <;> rfl
  · intro hxz hyz
    subst hxz; subst hyz
    rw [hfix, neighborAvg]
    norm_num

/-- Witness for C3 at corner (0,0) of the all-ones grid, red channel. -/
theorem repaired_pixel_neighbor_mean_witness :
    (0 : ℤ) ≤ 0 ∧ (0 : ℤ) ≤ 719 ∧
    (fixPixel (fun _ _ _ => 1) 0 0 0 0 0 =
        meanOver (fun _ _ _ => 1) (existingNbrs 0 0) 0 ∧
      (¬((0 : ℤ) = 0 ∨ (0 : ℤ) = 719) → ¬((0 : ℤ) = 0 ∨ (0 : ℤ) = 719) →
        (existingNbrs 0 0).length = 4) ∧
      (((0 : ℤ) = 0 ∨ (0 : ℤ) = 719) → ¬((0 : ℤ) = 0 ∨ (0 : ℤ) = 719) →
        (existingNbrs 0 0).length = 3) ∧
      (((0 : ℤ) = 0 ∨ (0 : ℤ) = 719) → ((0 : ℤ) = 0 ∨ (0 : ℤ) = 719) →
        (existingNbrs 0 0).length = 2) ∧
      ((0 : ℤ) = 0 → (0 : ℤ) = 0 →
        fixPixel (fun _ _ _ => 1) 0 0 0 0 0 =
          ((fun (_ _ : ℤ) (_ : Fin 3) => (1 : ℚ)) 1 0 0 +
            (fun (_ _ : ℤ) (_ : Fin 3) => (1 : ℚ)) 0 1 0) / 2)) :=
  ⟨le_refl 0, by norm_num,
   repaired_pixel_neighbor_mean (fun _ _ _ => 1) 0 0 0
     (le_refl 0) (by norm_num) (le_refl 0) (by norm_num)⟩

end Interpol

namespace Interpol

/-- C4: the coordinate list is processed strictly left to right and each
neighbor read sees the current grid: repairing `[(5,5),(5,6)]` in order,
the value written at (5,6) averages in the already-repaired value
`neighborAvg I 5 5 c` of pixel (5,5) — not its original value `I 5 5 c` —
and consequently the result is not invariant under permuting the list. -/
theorem repair_order_dependent (I : Grid) (c : Fin 3) :
    pixelfix I [(5, 5), (5, 6)] 5 6 c =
      (I 6 6 c + I 5 7 c + neighborAvg I 5 5 c + I 4 6 c) / 4 ∧
    neighborAvg I 5 5 c = (I 6 5 c + I 5 6 c + I 5 4 c + I 4 5 c) / 4 ∧
    (∃ J : Grid, pixelfix J [(5, 5), (5, 6)] ≠ pixelfix J [(5, 6), (5, 5)]) := by
  refine ⟨?_, ?_, ?_⟩
  · show fixPixel (fixPixel I 5 5) 5 6 5 6 c = _
    rw [show fixPixel (fixPixel I 5 5) 5 6 5 6 c =
        neighborAvg (fixPixel I 5 5) 5 6 c by simp [fixPixel]]
    rw [neighborAvg]
    norm_num
    rw [show (fixPixel I 5 5) 6 6 c = I 6 6 c by norm_num [fixPixel],
      show (fixPixel I 5 5) 5 7 c = I 5 7 c by norm_num [fixPixel],
      show (fixPixel I 5 5) 5 5 c = neighborAvg I 5 5 c by norm_num [fixPixel],
      show (fixPixel I 5 5) 4 6 c = I 4 6 c by norm_num [fixPixel]]
  · rw [neighborAvg]
    norm_num
  · refine ⟨fun a b _ => if a = 5 ∧ b = 4 then 4 else 0, ?_⟩
    intro h
    have h2 := congrFun (congrFun (congrFun h 5) 6) c
    rw [show pixelfix (fun a b _ => if a = 5 ∧ b = 4 then (4 : ℚ) else 0)
          [(5, 5), (5, 6)] 5 6 c = (1 : ℚ) / 4 by
        show fixPixel (fixPixel _ 5 5) 5 6 5 6 c = 1 / 4
        norm_num [fixPixel, neighborAvg]] at h2
    rw [show pixelfix (fun a b _ => if a = 5 ∧ b = 4 then (4 : ℚ) else 0)
          [(5, 6), (5, 5)] 5 6 c = (0 : ℚ) by
        show fixPixel
          (fixPixel (fun a b _ => if a = 5 ∧ b = 4 then (4 : ℚ) else 0) 5 6) 5 5 5 6 c = 0
        norm_num [fixPixel, neighborAvg]] at h2
    norm_num at h2

end Interpol

namespace Interpol

set_option linter.unusedVariables false in
/-- C8: requesting a copy does not protect the caller's grid: the returned
handle is bound to the input array without duplication, so after a call
with `copy = true` the caller's array holds the repaired values, is
identical to the returned grid, and the call behaves exactly as with
`copy = false`. -/
theorem copy_flag_does_not_copy (I : Grid) (pxq : List (ℤ × ℤ))
    (hne : pxq ≠ []) :
    (pixelfixCall I pxq true).2 = (pixelfixCall I pxq true).1 ∧
    (pixelfixCall I pxq true).2 = pixelfix I pxq ∧
    pixelfixCall I pxq true = pixelfixCall I pxq false :=
  ⟨rfl, rfl, rfl⟩

/-- Witness for C8 on the all-zero grid with one flagged pixel. -/
theorem copy_flag_does_not_copy_witness :
    ([((0 : ℤ), (0 : ℤ))] ≠ ([] : List (ℤ × ℤ))) ∧
    ((pixelfixCall (fun _ _ _ => 0) [(0, 0)] true).2 =
        (pixelfixCall (fun _ _ _ => 0) [(0, 0)] true).1 ∧
      (pixelfixCall (fun _ _ _ => 0) [(0, 0)] true).2 =
        pixelfix (fun _ _ _ => 0) [(0, 0)] ∧
      pixelfixCall (fun _ _ _ => 0) [(0, 0)] true =
        pixelfixCall (fun _ _ _ => 0) [(0, 0)] false) :=
  ⟨by simp, copy_flag_does_not_copy (fun _ _ _ => 0) [(0, 0)] (by simp)⟩

/-- C10: `pixelfix` writes only the listed coordinates: every pixel whose
(row, col) pair is not in the defective list keeps all three channel
values. -/
theorem unlisted_pixels_unchanged (I : Grid) (pxq : List (ℤ × ℤ))
    (a b : ℤ) (c : Fin 3)
    (hb : ∀ p ∈ pxq, 0 ≤ p.1 ∧ p.1 ≤ 719 ∧ 0 ≤ p.2 ∧ p.2 ≤ 719)
    (hnot : (a, b) ∉ pxq) :
    pixelfix I pxq a b c = I a b c := by
  induction pxq generalizing I with
  | nil => rfl
  | cons p l ih =>
    have hstep : fixPixel I p.1 p.2 a b c = I a b c := by
      rw [fixPixel]
      rw [if_neg]
      rintro ⟨rfl, rfl⟩
      exact hnot (by simp)
    have hrest : (a, b) ∉ l := fun hm => hnot (List.mem_cons_of_mem p hm)
    have hbl : ∀ q ∈ l, 0 ≤ q.1 ∧ q.1 ≤ 719 ∧ 0 ≤ q.2 ∧ q.2 ≤ 719 :=
      fun q hq => hb q (List.mem_cons_of_mem p hq)
    calc pixelfix I (p :: l) a b c
        = pixelfix (fixPixel I p.1 p.2) l a b c := rfl
      _ = fixPixel I p.1 p.2 a b c := ih (fixPixel I p.1 p.2) hbl hrest
      _ = I a b c := hstep

/-- Witness for C10: one flagged pixel (0,0), untouched pixel (3,3). -/
theorem unlisted_pixels_unchanged_witness :
    (((3 : ℤ), (3 : ℤ)) ∉ [((0 : ℤ), (0 : ℤ))]) ∧
    pixelfix (fun _ _ _ => 1) [(0, 0)] 3 3 0 = (fun (_ _ : ℤ) (_ : Fin 3) => (1 : ℚ)) 3 3 0 :=
  ⟨by simp,
   unlisted_pixels_unchanged (fun _ _ _ => 1) [(0, 0)] 3 3 0 (by simp) (by simp)⟩

end Interpol

namespace Interpol

/-- Witness for C5: table `[0,1,2,3]` sampled from the cubic `t^3`
(`yp = [0,1,8,27]`), query `x = 3/2`. -/
theorem cubic_round_trip_witness :
    lagrangeValid [0, 1, 2, 3] [0, 1, 8, 27] = true ∧
    4 ≤ [(0 : ℚ), 1, 2, 3].length ∧
    [(0 : ℚ), 1, 2, 3].getD 1 0 ≤ 3 / 2 ∧
    (3 / 2 : ℚ) < [(0 : ℚ), 1, 2, 3].getD ([(0 : ℚ), 1, 2, 3].length - 2) 0 ∧
    lagrange1 [0, 1, 2, 3] [0, 1, 8, 27] (3 / 2) = some (cubicPoly 0 0 0 1 (3 / 2)) :=
  ⟨by norm_num [lagrangeValid, increasing, List.chain'_cons],
   by norm_num,
   by norm_num,
   by norm_num,
   cubic_round_trip [0, 1, 2, 3] [0, 1, 8, 27] 0 0 0 1 (3 / 2)
     (by norm_num [lagrangeValid, increasing, List.chain'_cons])
     (by norm_num)
     (by
       intro i hi
       norm_num at hi
       interval_cases i <;> norm_num [cubicPoly])
     (by norm_num)
     (by norm_num)⟩

/-- C7 counterexample: a table with only three samples passes
`lagrange_cubic`'s validation (identical to `linear`'s: no
minimum-sample-count assert exists), and the call completes normally,
returning the sentinel rather than failing validation. -/
theorem cubic_accepts_three_samples :
    lagrangeValid [0, 1, 2] [0, 1, 2] = true ∧
    lagrange_cubic (Query.scalar 1) [0, 1, 2] [0, 1, 2] = some (Resp.scalar none) := by
  constructor
  · norm_num [lagrangeValid, increasing, List.chain'_cons]
  · norm_num [lagrange_cubic, lagrangeValid, increasing, List.chain'_cons, toVec,
      abyu, lagrange1]

/-- C7 amended: `lagrange_cubic` performs exactly the validation `linear`
performs (strictly increasing x, equal lengths, vectors) and no
sample-count check: a valid table with two or three samples passes
validation, and then every query returns the sentinel because the
supported domain is empty. -/
theorem cubic_validation_same_as_linear (xp yp : List ℚ) (x : ℚ)
    (hv : lagrangeValid xp yp = true)
    (hlen : xp.length = 2 ∨ xp.length = 3) :
    lagrangeValid xp yp = linearValid xp yp ∧
    lagrange1 xp yp x = none := by
  refine ⟨rfl, ?_⟩
  have hvv := hv
  simp only [lagrangeValid, Bool.and_eq_true, beq_iff_eq] at hvv
  obtain ⟨hinc, _⟩ := hvv
  rcases hlen with h | h
  · have h02 : xp.getD 0 0 < xp.getD 1 0 :=
      increasing_getD_lt hinc (by omega) (by omega)
    have hg : x < xp.getD 1 0 ∨ x ≥ xp.getD (xp.length - 2) 0 := by
      rw [h]
      show x < xp.getD 1 0 ∨ x ≥ xp.getD 0 0
      rcases lt_or_le x (xp.getD 1 0) with hc | hc
      · exact Or.inl hc
      · exact Or.inr (le_trans (le_of_lt h02) hc)
    rw [lagrange1, if_pos hg]
  · have hg : x < xp.getD 1 0 ∨ x ≥ xp.getD (xp.length - 2) 0 := by
      rw [h]
      show x < xp.getD 1 0 ∨ x ≥ xp.getD 1 0
      exact lt_or_ge x (xp.getD 1 0)
    rw [lagrange1, if_pos hg]

/-- Witness for the amended C7 at the three-sample table `[0,1,2]`. -/
theorem cubic_validation_same_as_linear_witness :
    lagrangeValid [0, 1, 2] [0, 1, 2] = true ∧
    ([(0 : ℚ), 1, 2].length = 2 ∨ [(0 : ℚ), 1, 2].length = 3) ∧
    (lagrangeValid [0, 1, 2] [0, 1, 2] = linearValid [0, 1, 2] [0, 1, 2] ∧
      lagrange1 [0, 1, 2] [0, 1, 2] (3 / 2) = none) :=
  ⟨by norm_num [lagrangeValid, increasing, List.chain'_cons],
   by norm_num,
   cubic_validation_same_as_linear [0, 1, 2] [0, 1, 2] (3 / 2)
     (by norm_num [lagrangeValid, increasing, List.chain'_cons])
     (by norm_num)⟩

/-- C9 counterexample: a sequence query of length 1 does not yield a
length-1 sequence result — the trailing size-1 collapse turns it into a
bare scalar. -/
theorem length_one_vector_collapses :
    linear (Query.vector [0]) [0, 1] [0, 1] = some (Resp.scalar (some 0)) ∧
    isVecResult (linear (Query.vector [0]) [0, 1] [0, 1]) = false := by
  have hval : linear (Query.vector [0]) [0, 1] [0, 1] = some (Resp.scalar (some 0)) := by
    norm_num [linear, linearValid, increasing, List.chain'_cons, toVec, abyu,
      linear1, loopInd, loopGo]
  exact ⟨hval, by rw [hval]; rfl⟩

/-- C9 amended: a scalar query yields a scalar result; a sequence query of
length `m ≠ 1` yields a sequence result of length `m`; a sequence query of
length 1 collapses to a bare scalar result. -/
theorem result_shape (xp yp : List ℚ) (x : ℚ) (xs : List ℚ)
    (hvl : linearValid xp yp = true) (hvc : lagrangeValid xp yp = true) :
    linear (Query.scalar x) xp yp = some (Resp.scalar (linear1 xp yp x)) ∧
    lagrange_cubic (Query.scalar x) xp yp = some (Resp.scalar (lagrange1 xp yp x)) ∧
    (xs.length ≠ 1 →
      linear (Query.vector xs) xp yp = some (Resp.vector (xs.map (linear1 xp yp))) ∧
      (xs.map (linear1 xp yp)).length = xs.length ∧
      lagrange_cubic (Query.vector xs) xp yp =
        some (Resp.vector (xs.map (lagrange1 xp yp))) ∧
      (xs.map (lagrange1 xp yp)).length = xs.length) ∧
    (xs.length = 1 →
      linear (Query.vector xs) xp yp =
        some (Resp.scalar (linear1 xp yp (xs.getD 0 0))) ∧
      lagrange_cubic (Query.vector xs) xp yp =
        some (Resp.scalar (lagrange1 xp yp (xs.getD 0 0)))) := by
  refine ⟨?_, ?_, ?_, ?_⟩
  · simp [linear, hvl, toVec, abyu]
  · simp [lagrange_cubic, hvc, toVec, abyu]
  · intro h
    refine ⟨?_, by simp, ?_, by simp⟩
    · simp [linear, hvl, toVec, abyu, h]
    · simp [lagrange_cubic, hvc, toVec, abyu, h]
  · intro h
    rcases xs with _ | ⟨a, t⟩
    · simp at h
    · rcases t with _ | ⟨b, t⟩
      · constructor
        · simp [linear, hvl, toVec, abyu]
        · simp [lagrange_cubic, hvc, toVec, abyu]
      · simp at h

/-- Witness for the amended C9 at table `[0,1]/[0,1]`, scalar query `0`,
batch query `[5, 6]` of length 2. -/
theorem result_shape_witness :
    linearValid [0, 1] [0, 1] = true ∧
    lagrangeValid [0, 1] [0, 1] = true ∧
    (linear (Query.scalar 0) [0, 1] [0, 1] =
        some (Resp.scalar (linear1 [0, 1] [0, 1] 0)) ∧
      lagrange_cubic (Query.scalar 0) [0, 1] [0, 1] =
        some (Resp.scalar (lagrange1 [0, 1] [0, 1] 0)) ∧
      ([(5 : ℚ), 6].length ≠ 1 →
        linear (Query.vector [5, 6]) [0, 1] [0, 1] =
          some (Resp.vector ([(5 : ℚ), 6].map (linear1 [0, 1] [0, 1]))) ∧
        ([(5 : ℚ), 6].map (linear1 [0, 1] [0, 1])).length = [(5 : ℚ), 6].length ∧
        lagrange_cubic (Query.vector [5, 6]) [0, 1] [0, 1] =
          some (Resp.vector ([(5 : ℚ), 6].map (lagrange1 [0, 1] [0, 1]))) ∧
        ([(5 : ℚ), 6].map (lagrange1 [0, 1] [0, 1])).length = [(5 : ℚ), 6].length) ∧
      ([(5 : ℚ), 6].length = 1 →
        linear (Query.vector [5, 6]) [0, 1] [0, 1] =
          some (Resp.scalar (linear1 [0, 1] [0, 1] ([(5 : ℚ), 6].getD 0 0))) ∧
        lagrange_cubic (Query.vector [5, 6]) [0, 1] [0, 1] =
          some (Resp.scalar (lagrange1 [0, 1] [0, 1] ([(5 : ℚ), 6].getD 0 0))))) :=
  ⟨by norm_num [linearValid, increasing, List.chain'_cons],
   by norm_num [lagrangeValid, increasing, List.chain'_cons],
   result_shape [0, 1] [0, 1] 0 [5, 6]
     (by norm_num [linearValid, increasing, List.chain'_cons])
     (by norm_num [lagrangeValid, increasing, List.chain'_cons])⟩

end Interpol
